import Mathlib

/-!
Verification of the fox32 host: the framebuffer/overlay compositor
(`Display::update`, `blit_overlay`) and the CPU-thread main loop from
`src/main.rs`, shallowly embedded in Lean.

Host byte buffers (the RAM view and the display background) are modelled
as total functions `Nat → Nat` giving the byte at each index; machine
`usize` subtraction, which panics on underflow in the source, is modelled
by returning `none` from the corresponding operation.
-/

namespace Fox32

/-- Screen width in pixels (`const WIDTH: usize = 640`). -/
def WIDTH : Nat := 640

/-- Screen height in pixels (`const HEIGHT: usize = 480`). -/
def HEIGHT : Nat := 480

/-- Physical address of the framebuffer (`const FRAMEBUFFER_ADDRESS: usize = 0x02000000`). -/
def FRAMEBUFFER_ADDRESS : Nat := 0x02000000

/-- One overlay slot, mirroring `struct Overlay` in `main.rs`. -/
structure Overlay where
  enabled : Bool
  width : Nat
  height : Nat
  x : Nat
  y : Nat
  framebuffer_pointer : Nat
deriving DecidableEq, Repr

/-- The row width in bytes after the right-edge clipping step of
`blit_overlay` (`width = width - (difference * 4)`), using truncated
subtraction; `blit_ok` separately records whether the source's `usize`
subtraction would have panicked. -/
def clippedWidthBytes (ov : Overlay) : Nat :=
  if ov.x + ov.width > WIDTH then
    ov.width * 4 - ((ov.x + ov.width) - WIDTH) * 4
  else
    ov.width * 4

/-- The overlay height after the bottom-edge clipping step of
`blit_overlay` (`height = height - difference`). -/
def clippedHeight (ov : Overlay) : Nat :=
  if ov.y + ov.height > HEIGHT then
    ov.height - ((ov.y + ov.height) - HEIGHT)
  else
    ov.height

/-- Whether the two clipping subtractions in `blit_overlay` stay in range:
`false` means the source program underflows a `usize` and panics. -/
def blit_ok (ov : Overlay) : Bool :=
  (if ov.x + ov.width > WIDTH then
    decide (((ov.x + ov.width) - WIDTH) * 4 ≤ ov.width * 4)
  else true)
  && (if ov.y + ov.height > HEIGHT then
    decide ((ov.y + ov.height) - HEIGHT ≤ ov.height)
  else true)

/-- One iteration of the row loop in `blit_overlay`: the bytes
`rowStart..rowStart+width` of the framebuffer are overwritten from the
overlay source bytes `srcStart..srcStart+width` (read at offset
`framebuffer_pointer` into RAM), four bytes (one pixel) at a time, a pixel
being copied only when its fourth byte (alpha) is greater than zero. -/
def blitRow (ram : Nat → Nat) (ptr width rowStart srcStart : Nat)
    (fb : Nat → Nat) : Nat → Nat :=
  fun i =>
    if rowStart ≤ i ∧ i < rowStart + width then
      if 0 < ram (ptr + srcStart + ((i - rowStart) / 4) * 4 + 3) then
        ram (ptr + srcStart + (i - rowStart))
      else fb i
    else fb i

/-- The row loop of `blit_overlay` (`for y in 0..height`), after the
clipped `width` and `height` have been computed: row `y` writes at
framebuffer index `overlay.x * 4 + overlay.y * WIDTH * 4 + y * WIDTH * 4`
and reads the overlay source at index `y * width`
(`overlay_framebuffer_index += width` per row). -/
def blitFn (fb : Nat → Nat) (ov : Overlay) (ram : Nat → Nat) : Nat → Nat :=
  (List.range (clippedHeight ov)).foldl
    (fun acc y =>
      blitRow ram ov.framebuffer_pointer (clippedWidthBytes ov)
        (ov.x * 4 + ov.y * (WIDTH * 4) + y * (WIDTH * 4))
        (y * clippedWidthBytes ov) acc)
    fb

/-- Embedding of `blit_overlay` from `main.rs`: `none` models the panic of the clipping
subtractions on underflow; otherwise the framebuffer bytes after the row
loop. -/
def blit_overlay (fb : Nat → Nat) (ov : Overlay) (ram : Nat → Nat) :
    Option (Nat → Nat) :=
  if blit_ok ov then some (blitFn fb ov ram) else none

/-- The snapshot loop of `Display::update`: bytes `0..HEIGHT*WIDTH*4` of the
background are copied from RAM starting at `FRAMEBUFFER_ADDRESS`; bytes
beyond that range keep their previous contents (the source vector has
exactly that length, so they do not exist there). -/
def snapshot (background ram : Nat → Nat) : Nat → Nat :=
  fun i =>
    if i < HEIGHT * WIDTH * 4 then ram (FRAMEBUFFER_ADDRESS + i) else background i

/-- One iteration of the overlay loop of `Display::update`: an enabled slot
is composited by `blit_overlay`, a disabled slot is skipped; a `none` (an
earlier panic) propagates. -/
def updateStep (ram : Nat → Nat) (acc : Option (Nat → Nat)) (ov : Overlay) :
    Option (Nat → Nat) :=
  match acc with
  | none => none
  | some fb => if ov.enabled then blit_overlay fb ov ram else some fb

/-- Embedding of `Display::update` from `main.rs`: snapshot the framebuffer region of
RAM, then composite overlay slots `0..=31` in ascending index order. -/
def Display.update (background : Nat → Nat) (overlays : Nat → Overlay)
    (ram : Nat → Nat) : Option (Nat → Nat) :=
  ((List.range 32).map overlays).foldl (updateStep ram)
    (some (snapshot background ram))

/-- Whether the row loop of `blit_overlay` writes the framebuffer byte `i`:
`i` lies in the written span of some row (its row index is in
`[ov.y, ov.y + clippedHeight)`, its column byte in
`[ov.x*4, ov.x*4 + clippedWidthBytes)`) and the corresponding source
pixel's alpha byte is positive. -/
def writesAt (ov : Overlay) (ram : Nat → Nat) (i : Nat) : Bool :=
  decide (ov.y ≤ i / (WIDTH * 4)) &&
  decide (i / (WIDTH * 4) < ov.y + clippedHeight ov) &&
  decide (ov.x * 4 ≤ i % (WIDTH * 4)) &&
  decide (i % (WIDTH * 4) < ov.x * 4 + clippedWidthBytes ov) &&
  decide (0 < ram (ov.framebuffer_pointer
    + (i / (WIDTH * 4) - ov.y) * clippedWidthBytes ov
    + ((i % (WIDTH * 4) - ov.x * 4) / 4) * 4 + 3))

/-- The overlay source byte that `blit_overlay` copies to framebuffer byte
`i` when it writes there. -/
def srcOf (ov : Overlay) (i : Nat) : Nat :=
  ov.framebuffer_pointer + (i / (WIDTH * 4) - ov.y) * clippedWidthBytes ov
    + (i % (WIDTH * 4) - ov.x * 4)

/-- An interrupt value, mirroring `enum Interrupt` (`cpu.rs` is outside the
given sources; the two constructors and their roles come from the spec's
data model). Exception payloads are abstracted to `Nat`. -/
inductive Interrupt where
  | request (vector : Nat)
  | exception (e : Nat)
deriving DecidableEq, Repr

/-- Modelled from the spec: the CPU fields that the thread loop in
`main.rs` reads and writes (`cpu.halted` and `cpu.flag.interrupt`); the
rest of the CPU state (`cpu.rs` is outside the given sources) is abstract,
and `cpu.interrupt` / `cpu.execute_memory_instruction` are passed to the
loop as opaque functions on this state. -/
structure Cpu where
  halted : Bool
  flag_interrupt : Bool
deriving DecidableEq, Repr

/-- A control location inside the CPU thread closure of `main.rs`:
`whileTest` is the `while !cpu.halted` test (line 161), `boundary` the
exception/interrupt polling at the top of the loop body (lines 162-168),
`execute` the `cpu.execute_memory_instruction()` call (line 169),
`exitCheck1` the `exit_receiver.try_recv()` inside the while (line 170),
`exitCheck2` the one after it (line 175), `flagCheck` the
`!cpu.flag.interrupt` test (line 179), `recvWait` the blocking
`interrupt_receiver.recv()` (line 184), and `done` the exit of the outer
loop. -/
inductive Loc where
  | whileTest
  | boundary
  | execute
  | exitCheck1
  | exitCheck2
  | flagCheck
  | recvWait
  | done
deriving DecidableEq, Repr

/-- A configuration of the CPU thread: a control location, the CPU, and
the pending contents of the three channels the thread receives from.
`intClosed` records whether every sender of the interrupt channel has been
dropped (`recv` then returns `Err`). -/
structure Config where
  loc : Loc
  cpu : Cpu
  exceptions : List Nat
  interrupts : List Interrupt
  exits : List Bool
  intClosed : Bool
deriving DecidableEq, Repr

/-- Lines 162-168 of `main.rs`: try the exception channel first; only when
it is empty try the interrupt channel; deliver at most one message to the
CPU via `deliver` (modelling `cpu.interrupt`). Returns the new CPU and the
two channel remainders. -/
def acceptOne (deliver : Cpu → Interrupt → Cpu) (cpu : Cpu)
    (exc : List Nat) (ints : List Interrupt) :
    Cpu × List Nat × List Interrupt :=
  match exc with
  | e :: rest => (deliver cpu (Interrupt.exception e), rest, ints)
  | [] =>
    match ints with
    | i :: rest => (deliver cpu i, exc, rest)
    | [] => (cpu, exc, ints)

/-- One small step of the CPU thread closure of `main.rs` (lines 160-191),
parameterised by the opaque CPU operations `deliver` (`cpu.interrupt`) and
`exec` (`cpu.execute_memory_instruction`). A blocked `recv` on an open
empty interrupt channel leaves the configuration unchanged. -/
def step (deliver : Cpu → Interrupt → Cpu) (exec : Cpu → Cpu) (c : Config) :
    Config :=
  match c.loc with
  | .whileTest =>
    if c.cpu.halted then { c with loc := .exitCheck2 }
    else { c with loc := .boundary }
  | .boundary =>
    let r := acceptOne deliver c.cpu c.exceptions c.interrupts
    { c with cpu := r.1, exceptions := r.2.1, interrupts := r.2.2,
             loc := .execute }
  | .execute => { c with cpu := exec c.cpu, loc := .exitCheck1 }
  | .exitCheck1 =>
    match c.exits with
    | _ :: rest => { c with exits := rest, loc := .exitCheck2 }
    | [] => { c with loc := .whileTest }
  | .exitCheck2 =>
    match c.exits with
    | _ :: rest => { c with exits := rest, loc := .done }
    | [] => { c with loc := .flagCheck }
  | .flagCheck =>
    if c.cpu.flag_interrupt then { c with loc := .recvWait }
    else { c with loc := .done }
  | .recvWait =>
    match c.interrupts with
    | i :: rest =>
      { c with cpu := deliver { c.cpu with halted := false } i,
               interrupts := rest, loc := .whileTest }
    | [] => if c.intClosed then { c with loc := .done } else c
  | .done => c

/-- Iterated small steps of the CPU thread. -/
def stepN (deliver : Cpu → Interrupt → Cpu) (exec : Cpu → Cpu) :
    Nat → Config → Config
  | 0, c => c
  | n + 1, c => stepN deliver exec n (step deliver exec c)

/-- Concrete RAM contents for the right-edge clipping analysis: a 2x2
RGBA8888 overlay image at address 0, pixel `(row, col)` holding colour
bytes `10*(2*row+col)+10` and alpha 255; all other RAM bytes zero. -/
def c2ram : Nat → Nat := fun a =>
  if a < 16 then (if a % 4 = 3 then 255 else 10 * (a / 4) + 10) else 0

/-- Concrete overlay for the alpha test: 2x1 pixels at the origin, data at
address 0. -/
def c3overlay : Overlay := ⟨true, 2, 1, 0, 0, 0⟩

/-- Concrete RAM for the alpha test: pixel 0 (bytes 0..3) transparent
(alpha byte 3 is 0), pixel 1 (bytes 4..7) opaque with alpha 255. -/
def c3ram : Nat → Nat := fun a =>
  if a = 3 then 0 else if a = 7 then 255 else if a < 8 then a + 10 else 0

/-- Concrete overlay slots for the stacking-order test: slots 1 and 3 are
enabled 1x1 overlays covering pixel `(0, 0)`, reading their pixel from RAM
addresses 0 and 16 respectively; all other slots are disabled. -/
def c4overlays : Nat → Overlay := fun j =>
  if j = 1 then ⟨true, 1, 1, 0, 0, 0⟩
  else if j = 3 then ⟨true, 1, 1, 0, 0, 16⟩
  else ⟨false, 16, 16, 0, 0, 0⟩

/-- Concrete RAM for the stacking-order test: slot 1's pixel holds bytes
100 (opaque) and slot 3's pixel holds bytes 200 (opaque). -/
def c4ram : Nat → Nat := fun a =>
  if a < 4 then 100 else if 16 ≤ a ∧ a < 20 then 200 else 0

/-- The clipping-scenario overlay of the spec: `x=635, y=0, width=16,
height=16`, data at address 0. -/
def redOverlay : Overlay := ⟨true, 16, 16, 635, 0, 0⟩

/-- RAM holding an unbounded uniformly red opaque RGBA8888 image at
address 0: every pixel is `(255, 0, 0, 255)`. -/
def redRam : Nat → Nat := fun a =>
  if a % 4 = 0 then 255 else if a % 4 = 3 then 255 else 0

/-- RAM whose framebuffer region starts with the bytes
`DE AD BE EF` and is zero elsewhere. -/
def deadbeefRam : Nat → Nat := fun a =>
  if a = 0x02000000 then 0xDE
  else if a = 0x02000000 + 1 then 0xAD
  else if a = 0x02000000 + 2 then 0xBE
  else if a = 0x02000000 + 3 then 0xEF
  else 0

theorem WIDTH_mul : WIDTH * 4 = 2560 := rfl

/-- Pointwise value of the row loop of `blit_overlay` after `h` rows, for a
row span `w` that fits inside one screen row. -/
theorem blitRows_apply (ram : Nat → Nat) (ptr w xb y0 : Nat)
    (hw : xb + w ≤ 2560) :
    ∀ (h : Nat) (fb : Nat → Nat) (i : Nat),
    ((List.range h).foldl
        (fun acc y => blitRow ram ptr w (xb + y0 * 2560 + y * 2560) (y * w) acc)
        fb) i
      = if y0 ≤ i / 2560 ∧ i / 2560 < y0 + h ∧ xb ≤ i % 2560 ∧ i % 2560 < xb + w
            ∧ 0 < ram (ptr + (i / 2560 - y0) * w + ((i % 2560 - xb) / 4) * 4 + 3)
        then ram (ptr + (i / 2560 - y0) * w + (i % 2560 - xb))
        else fb i := by
  intro h
  induction h with
  | zero =>
    intro fb i
    rw [List.range_zero, List.foldl_nil, if_neg]
    rintro ⟨h1, h2, -⟩
    omega
  | succ n ih =>
    intro fb i
    rw [List.range_succ, List.foldl_append, List.foldl_cons, List.foldl_nil]
    simp only [blitRow]
    by_cases hin : xb + y0 * 2560 + n * 2560 ≤ i ∧ i < xb + y0 * 2560 + n * 2560 + w
    · have hq : i / 2560 = y0 + n := by omega
      have hqy : i / 2560 - y0 = n := by omega
      have hsub : i - (xb + y0 * 2560 + n * 2560) = i % 2560 - xb := by omega
      have hr1 : xb ≤ i % 2560 := by omega
      have hr2 : i % 2560 < xb + w := by omega
      rw [if_pos hin, hsub, hqy]
      by_cases ha : 0 < ram (ptr + n * w + ((i % 2560 - xb) / 4) * 4 + 3)
      · rw [if_pos ha, if_pos ⟨by omega, by omega, hr1, hr2, ha⟩]
      · rw [if_neg ha, ih, if_neg, if_neg]
        · rintro ⟨-, -, -, -, h5⟩
          exact ha h5
        · rintro ⟨-, h2, -⟩
          omega
    · rw [if_neg hin, ih]
      refine if_congr ⟨fun hc => ⟨hc.1, by omega, hc.2.2⟩, fun hc => ?_⟩ rfl rfl
      obtain ⟨h1, h2, h3, h4, h5⟩ := hc
      exact ⟨h1, by omega, h3, h4, h5⟩

/-- Under `blit_ok`, the written span of one overlay row fits inside one
screen row. -/
theorem blit_ok_row_fits (ov : Overlay) (h : blit_ok ov = true) :
    ov.x * 4 + clippedWidthBytes ov ≤ 2560 := by
  simp only [blit_ok, Bool.and_eq_true] at h
  obtain ⟨h1, -⟩ := h
  unfold clippedWidthBytes
  by_cases hx : ov.x + ov.width > WIDTH
  · rw [if_pos hx] at h1 ⊢
    rw [decide_eq_true_eq] at h1
    simp only [WIDTH] at *
    omega
  · rw [if_neg hx]
    simp only [WIDTH] at hx ⊢
    omega

/-- Under `blit_ok`, every written row index stays below `HEIGHT`. -/
theorem blit_ok_rows_fit (ov : Overlay) (h : blit_ok ov = true) :
    ov.y + clippedHeight ov ≤ 480 := by
  simp only [blit_ok, Bool.and_eq_true] at h
  obtain ⟨-, h2⟩ := h
  unfold clippedHeight
  by_cases hy : ov.y + ov.height > HEIGHT
  · rw [if_pos hy] at h2 ⊢
    rw [decide_eq_true_eq] at h2
    simp only [HEIGHT] at *
    omega
  · rw [if_neg hy]
    simp only [HEIGHT] at hy ⊢
    omega

/-- Pointwise characterisation of the row loop of `blit_overlay`: byte `i`
of the result is the overlay source byte `srcOf ov i` when `writesAt` holds
there, and the untouched input byte otherwise. -/
theorem blitFn_apply (fb : Nat → Nat) (ov : Overlay) (ram : Nat → Nat)
    (h : blit_ok ov = true) (i : Nat) :
    blitFn fb ov ram i
      = if writesAt ov ram i then ram (srcOf ov i) else fb i := by
  have hw := blit_ok_row_fits ov h
  have key := blitRows_apply ram ov.framebuffer_pointer (clippedWidthBytes ov)
    (ov.x * 4) ov.y hw (clippedHeight ov) fb i
  simp only [blitFn, WIDTH_mul]
  rw [key]
  refine if_congr ?_ rfl rfl
  simp only [writesAt, srcOf, WIDTH_mul, Bool.and_eq_true, decide_eq_true_eq]
  tauto

/-- A `none` accumulator (an earlier panic) propagates through the overlay
loop of `Display::update`. -/
theorem updateFold_none (ram : Nat → Nat) (l : List Overlay) :
    l.foldl (updateStep ram) none = none := by
  induction l with
  | nil => rfl
  | cons ov l ih => rw [List.foldl_cons]; exact ih

/-- If the overlay loop completes without a panic, every enabled overlay it
visited passed the clipping subtractions. -/
theorem updateFold_enabled_ok (ram : Nat → Nat) :
    ∀ (l : List Overlay) (fb fb2 : Nat → Nat),
      l.foldl (updateStep ram) (some fb) = some fb2 →
      ∀ ov ∈ l, ov.enabled = true → blit_ok ov = true := by
  intro l
  induction l with
  | nil =>
    intro fb fb2 _ ov hov
    exact absurd hov (List.not_mem_nil ov)
  | cons ov0 l ih =>
    intro fb fb2 hfold ov hov hen
    rw [List.foldl_cons] at hfold
    by_cases h0 : ov0.enabled = true
    · by_cases hok : blit_ok ov0 = true
      · have hstep : updateStep ram (some fb) ov0 = some (blitFn fb ov0 ram) := by
          simp [updateStep, h0, blit_overlay, hok]
        rw [hstep] at hfold
        rcases List.mem_cons.mp hov with h | h
        · subst h; exact hok
        · exact ih _ _ hfold ov h hen
      · have hstep : updateStep ram (some fb) ov0 = none := by
          simp [updateStep, h0, blit_overlay, hok]
        rw [hstep, updateFold_none] at hfold
        exact absurd hfold (by simp)
    · have hstep : updateStep ram (some fb) ov0 = some fb := by
        simp [updateStep, h0]
      rw [hstep] at hfold
      rcases List.mem_cons.mp hov with h | h
      · subst h; exact absurd hen h0
      · exact ih _ _ hfold ov h hen

/-- A byte that no enabled overlay of the list writes is left at its input
value by the overlay loop. -/
theorem updateFold_noWrite (ram : Nat → Nat) (i : Nat) :
    ∀ (l : List Overlay) (fb fb2 : Nat → Nat),
      (∀ ov ∈ l, ov.enabled = true → writesAt ov ram i = false) →
      l.foldl (updateStep ram) (some fb) = some fb2 →
      fb2 i = fb i := by
  intro l
  induction l with
  | nil =>
    intro fb fb2 _ hfold
    rw [List.foldl_nil] at hfold
    rw [Option.some.injEq] at hfold
    rw [hfold]
  | cons ov0 l ih =>
    intro fb fb2 hno hfold
    rw [List.foldl_cons] at hfold
    by_cases h0 : ov0.enabled = true
    · by_cases hok : blit_ok ov0 = true
      · have hstep : updateStep ram (some fb) ov0 = some (blitFn fb ov0 ram) := by
          simp [updateStep, h0, blit_overlay, hok]
        rw [hstep] at hfold
        have htail := ih _ _ (fun ov hov => hno ov (List.mem_cons_of_mem _ hov)) hfold
        rw [htail, blitFn_apply _ _ _ hok,
          if_neg (by rw [hno ov0 (List.mem_cons_self ov0 l) h0]; simp)]
      · have hstep : updateStep ram (some fb) ov0 = none := by
          simp [updateStep, h0, blit_overlay, hok]
        rw [hstep, updateFold_none] at hfold
        exact absurd hfold (by simp)
    · have hstep : updateStep ram (some fb) ov0 = some fb := by
        simp [updateStep, h0]
      rw [hstep] at hfold
      exact ih _ _ (fun ov hov => hno ov (List.mem_cons_of_mem _ hov)) hfold

/-- The last enabled overlay of the loop that writes byte `i` determines
the final value of byte `i`: later slots that do not write there leave it
alone, so the byte holds that overlay's source pixel byte. -/
theorem updateFold_lastWrite (ram : Nat → Nat) (i : Nat)
    (l1 l2 : List Overlay) (ov1 : Overlay) (fb fb2 : Nat → Nat)
    (hen : ov1.enabled = true) (hw : writesAt ov1 ram i = true)
    (hno : ∀ ov ∈ l2, ov.enabled = true → writesAt ov ram i = false)
    (hfold : (l1 ++ ov1 :: l2).foldl (updateStep ram) (some fb) = some fb2) :
    fb2 i = ram (srcOf ov1 i) := by
  rw [List.foldl_append, List.foldl_cons] at hfold
  cases hacc : l1.foldl (updateStep ram) (some fb) with
  | none =>
    rw [hacc] at hfold
    simp only [updateStep] at hfold
    rw [updateFold_none] at hfold
    exact absurd hfold (by simp)
  | some fb1 =>
    rw [hacc] at hfold
    by_cases hok : blit_ok ov1 = true
    · have hstep : updateStep ram (some fb1) ov1 = some (blitFn fb1 ov1 ram) := by
        simp [updateStep, hen, blit_overlay, hok]
      rw [hstep] at hfold
      have htail := updateFold_noWrite ram i l2 _ fb2 hno hfold
      rw [htail, blitFn_apply _ _ _ hok, if_pos hw]
    · have hstep : updateStep ram (some fb1) ov1 = none := by
        simp [updateStep, hen, blit_overlay, hok]
      rw [hstep, updateFold_none] at hfold
      exact absurd hfold (by simp)

/-- If an enabled overlay of the list fails the clipping subtractions, the
whole overlay loop panics (`none`). -/
theorem updateFold_bad (ram : Nat → Nat) :
    ∀ (l : List Overlay) (acc : Option (Nat → Nat)) (ov : Overlay),
      ov ∈ l → ov.enabled = true → blit_ok ov = false →
      l.foldl (updateStep ram) acc = none := by
  intro l
  induction l with
  | nil =>
    intro acc ov hov
    exact absurd hov (List.not_mem_nil ov)
  | cons ov0 l ih =>
    intro acc ov hov hen hbad
    rw [List.foldl_cons]
    rcases List.mem_cons.mp hov with h | h
    · subst h
      cases acc with
      | none => exact updateFold_none ram l
      | some fb =>
        have hstep : updateStep ram (some fb) ov = none := by
          simp [updateStep, hen, blit_overlay, hbad]
        rw [hstep]
        exact updateFold_none ram l
    · exact ih _ ov h hen hbad

/-- A write of the row loop always lands inside the `HEIGHT*WIDTH*4`-byte
background vector. -/
theorem writesAt_lt (ov : Overlay) (ram : Nat → Nat) (i : Nat)
    (hok : blit_ok ov = true) (hw : writesAt ov ram i = true) :
    i < HEIGHT * WIDTH * 4 := by
  have h1 := blit_ok_rows_fit ov hok
  simp only [writesAt, Bool.and_eq_true, decide_eq_true_eq, WIDTH_mul] at hw
  obtain ⟨⟨⟨⟨-, h2⟩, -⟩, -⟩, -⟩ := hw
  show i < 1228800
  omega

/-- C1: at an instruction boundary while running (the polling code at the
top of the `while !cpu.halted` body), the thread accepts at most one
pending message (the total number pending drops by at most one); when an
exception is pending it is the one accepted, with the interrupt channel
untouched; and the interrupt channel is only received from when no
exception is pending. -/
theorem cpu_boundary_exception_priority (deliver : Cpu → Interrupt → Cpu)
    (exec : Cpu → Cpu) (c : Config) (h : c.loc = Loc.boundary) :
    (c.exceptions.length + c.interrupts.length)
        ≤ ((step deliver exec c).exceptions.length
            + (step deliver exec c).interrupts.length) + 1 ∧
    (∀ e rest, c.exceptions = e :: rest →
      (step deliver exec c).cpu = deliver c.cpu (Interrupt.exception e) ∧
      (step deliver exec c).exceptions = rest ∧
      (step deliver exec c).interrupts = c.interrupts) ∧
    ((step deliver exec c).interrupts ≠ c.interrupts → c.exceptions = []) := by
  obtain ⟨loc, cpu, exc, ints, exits, cl⟩ := c
  obtain rfl : loc = Loc.boundary := h
  refine ⟨?_, ?_, ?_⟩
  · cases exc with
    | nil =>
      cases ints with
      | nil => simp [step, acceptOne]
      | cons i0 r1 => simp [step, acceptOne]
    | cons e0 r0 =>
      simp only [step, acceptOne, List.length_cons]
      omega
  · intro e rest heq
    cases exc with
    | nil => cases heq
    | cons e0 r0 =>
      injection heq with h1 h2
      subst h1
      subst h2
      exact ⟨rfl, rfl, rfl⟩
  · cases exc with
    | nil => intro _; rfl
    | cons e0 r0 => intro hne; exact absurd rfl hne

/-- Witness for C1 at a concrete configuration with both an exception and
a request pending: the exception is consumed and the request stays. -/
theorem cpu_boundary_exception_priority_witness :
    (step (fun c _ => c) (fun c => c)
        ⟨Loc.boundary, ⟨false, true⟩, [7], [Interrupt.request 255], [], false⟩).exceptions
      = [] ∧
    (step (fun c _ => c) (fun c => c)
        ⟨Loc.boundary, ⟨false, true⟩, [7], [Interrupt.request 255], [], false⟩).interrupts
      = [Interrupt.request 255] := by
  have h := cpu_boundary_exception_priority (fun c _ => c) (fun c => c)
      ⟨Loc.boundary, ⟨false, true⟩, [7], [Interrupt.request 255], [], false⟩ rfl
  exact ⟨(h.2.1 7 [] rfl).2.1, (h.2.1 7 [] rfl).2.2⟩

/-- C6 as stated is false on the code: waking from halt with an exit
message already pending, the thread delivers the interrupt, passes the
boundary, and reaches the `execute_memory_instruction` call (location
`execute` after 3 steps) with the exit message still unconsumed; the
instruction is executed at step 4 (observable here because `exec` flips
`flag_interrupt` to `false`) while `exits` still holds the message, which
is consumed only at step 5. So the shutdown channel is first checked
after, not before, the next instruction. -/
theorem cpu_wake_exit_check_counterexample :
    (stepN (fun c _ => c) (fun c => ⟨c.halted, false⟩) 3
        ⟨Loc.recvWait, ⟨true, true⟩, [], [Interrupt.request 255], [true], false⟩).loc
      = Loc.execute ∧
    (stepN (fun c _ => c) (fun c => ⟨c.halted, false⟩) 4
        ⟨Loc.recvWait, ⟨true, true⟩, [], [Interrupt.request 255], [true], false⟩).cpu.flag_interrupt
      = false ∧
    (stepN (fun c _ => c) (fun c => ⟨c.halted, false⟩) 4
        ⟨Loc.recvWait, ⟨true, true⟩, [], [Interrupt.request 255], [true], false⟩).exits
      = [true] ∧
    (stepN (fun c _ => c) (fun c => ⟨c.halted, false⟩) 5
        ⟨Loc.recvWait, ⟨true, true⟩, [], [Interrupt.request 255], [true], false⟩).exits
      = [] :=
  ⟨rfl, rfl, rfl, rfl⟩

/-- C6 amended: when halted with interrupt-enable true, the thread blocks
on `interrupt_receiver.recv()` (an open empty interrupt channel leaves the
configuration unchanged, consuming nothing); after being woken by a
received interrupt it delivers it, polls the two channels once at the
boundary, executes one instruction, and checks the shutdown channel
immediately AFTER that instruction, consuming a pending exit message
there. -/
theorem cpu_halt_wake_amended (deliver : Cpu → Interrupt → Cpu)
    (exec : Cpu → Cpu) (cpu : Cpu) (exc : List Nat) (i : Interrupt)
    (rest : List Interrupt) (es : List Bool)
    (hwake : (deliver { cpu with halted := false } i).halted = false) :
    step deliver exec ⟨Loc.recvWait, cpu, exc, [], es, false⟩
        = ⟨Loc.recvWait, cpu, exc, [], es, false⟩ ∧
    (stepN deliver exec 4 ⟨Loc.recvWait, cpu, exc, i :: rest, es, false⟩).loc
        = Loc.exitCheck1 ∧
    (stepN deliver exec 4 ⟨Loc.recvWait, cpu, exc, i :: rest, es, false⟩).exits
        = es ∧
    (stepN deliver exec 4 ⟨Loc.recvWait, cpu, exc, i :: rest, es, false⟩).cpu
        = exec (acceptOne deliver (deliver { cpu with halted := false } i) exc rest).1 ∧
    (∀ b es2, es = b :: es2 →
      (stepN deliver exec 5 ⟨Loc.recvWait, cpu, exc, i :: rest, es, false⟩).exits
        = es2) := by
  refine ⟨rfl, ?_, ?_, ?_, ?_⟩
  · simp [stepN, step, hwake]
  · simp [stepN, step, hwake]
  · simp [stepN, step, hwake]
  · intro b es2 hes
    subst hes
    simp [stepN, step, hwake]

/-- Witness for the amended C6 at a concrete wake. -/
theorem cpu_halt_wake_amended_witness :
    (stepN (fun c _ => c) (fun c => c) 4
        ⟨Loc.recvWait, ⟨true, true⟩, [], [Interrupt.request 255], [true], false⟩).loc
      = Loc.exitCheck1 ∧
    (stepN (fun c _ => c) (fun c => c) 5
        ⟨Loc.recvWait, ⟨true, true⟩, [], [Interrupt.request 255], [true], false⟩).exits
      = [] := by
  have h := cpu_halt_wake_amended (fun c _ => c) (fun c => c) ⟨true, true⟩ []
      (Interrupt.request 255) [] [true] rfl
  exact ⟨h.2.1, h.2.2.2.2 true [] rfl⟩

/-- C10: the exception channel is received from only at a running
instruction boundary, never in the halted region; a halted thread blocked
on `recv` with no pending request does not move (so only a request can
wake it); a halted CPU with interrupt-enable false reaches the terminal
location in three steps with every channel untouched; and the terminal
location is absorbing, consuming nothing further. -/
theorem cpu_halted_only_request_wakes (deliver : Cpu → Interrupt → Cpu)
    (exec : Cpu → Cpu) :
    (∀ c : Config, c.loc ≠ Loc.boundary →
      (step deliver exec c).exceptions = c.exceptions) ∧
    (∀ (cpu : Cpu) (exc : List Nat) (es : List Bool),
      step deliver exec ⟨Loc.recvWait, cpu, exc, [], es, false⟩
        = ⟨Loc.recvWait, cpu, exc, [], es, false⟩) ∧
    (∀ (cpu : Cpu) (exc : List Nat) (ints : List Interrupt) (cl : Bool),
      cpu.halted = true → cpu.flag_interrupt = false →
      stepN deliver exec 3 ⟨Loc.whileTest, cpu, exc, ints, [], cl⟩
        = ⟨Loc.done, cpu, exc, ints, [], cl⟩) ∧
    (∀ c : Config, c.loc = Loc.done → step deliver exec c = c) := by
  refine ⟨?_, ?_, ?_, ?_⟩
  · intro c hne
    obtain ⟨loc, cpu, exc, ints, exits, cl⟩ := c
    obtain ⟨hh, hf⟩ := cpu
    cases loc with
    | whileTest => cases hh <;> rfl
    | boundary => exact absurd rfl hne
    | execute => rfl
    | exitCheck1 => cases exits <;> rfl
    | exitCheck2 => cases exits <;> rfl
    | flagCheck => cases hf <;> rfl
    | recvWait =>
      cases ints with
      | nil => cases cl <;> rfl
      | cons i r => rfl
    | done => rfl
  · intro cpu exc es
    rfl
  · intro cpu exc ints cl h1 h2
    simp [stepN, step, h1, h2]
  · intro c h
    obtain ⟨loc, cpu, exc, ints, exits, cl⟩ := c
    obtain rfl : loc = Loc.done := h
    rfl

/-- Witness for C10: a halted CPU with interrupts disabled terminates in
three steps without consuming the pending exception or request. -/
theorem cpu_halted_only_request_wakes_witness :
    stepN (fun c _ => c) (fun c => c) 3
        ⟨Loc.whileTest, ⟨true, false⟩, [1], [Interrupt.request 2], [], false⟩
      = ⟨Loc.done, ⟨true, false⟩, [1], [Interrupt.request 2], [], false⟩ :=
  (cpu_halted_only_request_wakes (fun c _ => c) (fun c => c)).2.2.1
    ⟨true, false⟩ [1] [Interrupt.request 2] false rfl rfl

/-- C5: `Display::update` initialises the background from the snapshot of
exactly the `640*480*4` bytes of RAM at `FRAMEBUFFER_ADDRESS` (byte `i`
becomes `RAM[0x02000000 + i]`) before any overlay is composited: with no
enabled overlay the result is exactly that snapshot. -/
theorem update_snapshot_first (background : Nat → Nat)
    (overlays : Nat → Overlay) (ram : Nat → Nat)
    (hdis : ∀ j < 32, (overlays j).enabled = false) :
    Display.update background overlays ram = some (snapshot background ram) ∧
    (∀ i < HEIGHT * WIDTH * 4,
      snapshot background ram i = ram (FRAMEBUFFER_ADDRESS + i)) := by
  have key : ∀ (l : List Overlay) (fb : Nat → Nat),
      (∀ ov ∈ l, ov.enabled = false) →
      l.foldl (updateStep ram) (some fb) = some fb := by
    intro l
    induction l with
    | nil => intro fb _; rfl
    | cons ov0 l ih =>
      intro fb hd
      rw [List.foldl_cons]
      have hstep : updateStep ram (some fb) ov0 = some fb := by
        simp [updateStep, hd ov0 (List.mem_cons_self ov0 l)]
      rw [hstep]
      exact ih fb fun ov hov => hd ov (List.mem_cons_of_mem _ hov)
  constructor
  · unfold Display.update
    apply key
    intro ov hov
    rw [List.mem_map] at hov
    obtain ⟨j, hj, rfl⟩ := hov
    exact hdis j (List.mem_range.mp hj)
  · intro i hi
    simp [snapshot, hi]

/-- Witness for C5: with `DE AD BE EF` written at the start of the
framebuffer region and every slot disabled, the snapshot is produced
unchanged and its first four bytes are `DE AD BE EF`. -/
theorem update_snapshot_first_witness :
    Display.update (fun _ => 0) (fun _ => ⟨false, 16, 16, 0, 0, 0⟩) deadbeefRam
        = some (snapshot (fun _ => 0) deadbeefRam) ∧
    snapshot (fun _ => 0) deadbeefRam 0 = 0xDE ∧
    snapshot (fun _ => 0) deadbeefRam 1 = 0xAD ∧
    snapshot (fun _ => 0) deadbeefRam 2 = 0xBE ∧
    snapshot (fun _ => 0) deadbeefRam 3 = 0xEF := by
  have h := update_snapshot_first (fun _ => 0) (fun _ => ⟨false, 16, 16, 0, 0, 0⟩)
      deadbeefRam (fun j _ => rfl)
  refine ⟨h.1, ?_, ?_, ?_, ?_⟩
  · exact (h.2 0 (by decide)).trans (by decide)
  · exact (h.2 1 (by decide)).trans (by decide)
  · exact (h.2 2 (by decide)).trans (by decide)
  · exact (h.2 3 (by decide)).trans (by decide)

/-- C9: an enabled overlay with `x > 640` (or `y > 480`) makes the clipping
subtraction of `blit_overlay` underflow its `usize` (the difference
subtracted exceeds the overlay's width in bytes), so the blit — and with
it `Display::update` — panics (`none`) instead of clipping the overlay to
nothing. -/
theorem update_panics_offscreen (background : Nat → Nat)
    (overlays : Nat → Overlay) (ram fb : Nat → Nat) (j : Nat) (hj : j < 32)
    (hen : (overlays j).enabled = true)
    (hoff : WIDTH < (overlays j).x ∨ HEIGHT < (overlays j).y) :
    blit_overlay fb (overlays j) ram = none ∧
    Display.update background overlays ram = none := by
  have hbad : blit_ok (overlays j) = false := by
    rcases hoff with h | h
    · have hx : (overlays j).x + (overlays j).width > WIDTH := by omega
      have hu : ¬ ((((overlays j).x + (overlays j).width) - WIDTH) * 4
          ≤ (overlays j).width * 4) := by
        simp only [WIDTH] at h ⊢
        omega
      simp [blit_ok, hx, hu]
    · have hy : (overlays j).y + (overlays j).height > HEIGHT := by omega
      have hu : ¬ (((overlays j).y + (overlays j).height) - HEIGHT
          ≤ (overlays j).height) := by
        simp only [HEIGHT] at h ⊢
        omega
      simp [blit_ok, hy, hu]
  constructor
  · simp [blit_overlay, hbad]
  · unfold Display.update
    exact updateFold_bad ram _ _ (overlays j)
      (List.mem_map_of_mem overlays (List.mem_range.mpr hj)) hen hbad

/-- Witness for C9: slot 0 enabled at `x = 641` panics the whole update. -/
theorem update_panics_offscreen_witness :
    blit_overlay (fun _ => 0)
        ((fun j => if j = 0 then (⟨true, 16, 16, 641, 0, 0⟩ : Overlay)
          else ⟨false, 16, 16, 0, 0, 0⟩) 0) (fun _ => 0) = none ∧
    Display.update (fun _ => 0)
        (fun j => if j = 0 then (⟨true, 16, 16, 641, 0, 0⟩ : Overlay)
          else ⟨false, 16, 16, 0, 0, 0⟩) (fun _ => 0) = none :=
  update_panics_offscreen (fun _ => 0)
    (fun j => if j = 0 then (⟨true, 16, 16, 641, 0, 0⟩ : Overlay)
      else ⟨false, 16, 16, 0, 0, 0⟩)
    (fun _ => 0) (fun _ => 0) 0 (by norm_num) rfl (Or.inl (by decide))

/-- C3: binary alpha in `blit_overlay`. For every composited row `r` and
source pixel group `g` of the (possibly clipped) row, if the source
pixel's alpha byte (offset `g*4 + 3` in the row the code reads) is 0 the
four destination bytes are unchanged, and if it is positive all four
destination bytes are overwritten with the source pixel's bytes; no
blending occurs. -/
theorem blit_alpha_binary (fb ram : Nat → Nat) (ov : Overlay)
    (hok : blit_ok ov = true) (r g : Nat)
    (hr : r < clippedHeight ov) (hg : g * 4 + 4 ≤ clippedWidthBytes ov) :
    (ram (ov.framebuffer_pointer + r * clippedWidthBytes ov + g * 4 + 3) = 0 →
      ∀ k < 4, blitFn fb ov ram (ov.x * 4 + (ov.y + r) * 2560 + g * 4 + k)
        = fb (ov.x * 4 + (ov.y + r) * 2560 + g * 4 + k)) ∧
    (0 < ram (ov.framebuffer_pointer + r * clippedWidthBytes ov + g * 4 + 3) →
      ∀ k < 4, blitFn fb ov ram (ov.x * 4 + (ov.y + r) * 2560 + g * 4 + k)
        = ram (ov.framebuffer_pointer + r * clippedWidthBytes ov + (g * 4 + k))) := by
  have hw := blit_ok_row_fits ov hok
  have main : ∀ k, k < 4 →
      blitFn fb ov ram (ov.x * 4 + (ov.y + r) * 2560 + g * 4 + k)
        = if 0 < ram (ov.framebuffer_pointer + r * clippedWidthBytes ov + g * 4 + 3)
          then ram (ov.framebuffer_pointer + r * clippedWidthBytes ov + (g * 4 + k))
          else fb (ov.x * 4 + (ov.y + r) * 2560 + g * 4 + k) := by
    intro k hk
    set i := ov.x * 4 + (ov.y + r) * 2560 + g * 4 + k with hi
    have hq : i / 2560 = ov.y + r := by omega
    have hm : i % 2560 = ov.x * 4 + g * 4 + k := by omega
    have e1 : ov.y + r - ov.y = r := by omega
    have e2 : ov.x * 4 + g * 4 + k - ov.x * 4 = g * 4 + k := by omega
    have e3 : (g * 4 + k) / 4 = g := by omega
    have halt : ov.framebuffer_pointer
          + (i / 2560 - ov.y) * clippedWidthBytes ov
          + ((i % 2560 - ov.x * 4) / 4) * 4 + 3
        = ov.framebuffer_pointer + r * clippedWidthBytes ov + g * 4 + 3 := by
      rw [hq, hm, e1, e2, e3]
    have hsrc : srcOf ov i
        = ov.framebuffer_pointer + r * clippedWidthBytes ov + (g * 4 + k) := by
      simp only [srcOf, WIDTH_mul]
      rw [hq, hm, e1, e2]
    rw [blitFn_apply fb ov ram hok i]
    by_cases ha : 0 < ram (ov.framebuffer_pointer + r * clippedWidthBytes ov
        + g * 4 + 3)
    · rw [if_pos ha]
      have hwa : writesAt ov ram i = true := by
        simp only [writesAt, WIDTH_mul, Bool.and_eq_true, decide_eq_true_eq]
        refine ⟨⟨⟨⟨by omega, by omega⟩, by omega⟩, by omega⟩, ?_⟩
        rw [halt]
        exact ha
      rw [if_pos hwa, hsrc]
    · rw [if_neg ha]
      have hwa : writesAt ov ram i = false := by
        simp only [writesAt, WIDTH_mul, halt]
        simp [ha]
      rw [if_neg (by simp [hwa])]
  refine ⟨fun h0 k hk => ?_, fun hpos k hk => ?_⟩
  · rw [main k hk, if_neg (by simp [h0])]
  · rw [main k hk, if_pos hpos]

/-- Witness for C3 at a concrete 2x1 overlay at the origin: pixel 0 is
transparent and leaves the destination byte at 99, pixel 1 is opaque and
overwrites destination byte 6 with source byte `c3ram 6 = 16`. -/
theorem blit_alpha_binary_witness :
    blitFn (fun _ => 99) c3overlay c3ram 0 = 99 ∧
    blitFn (fun _ => 99) c3overlay c3ram 6 = 16 := by
  have h := blit_alpha_binary (fun _ => 99) c3ram c3overlay (by decide) 0 0
      (by decide) (by decide)
  have h2 := blit_alpha_binary (fun _ => 99) c3ram c3overlay (by decide) 0 1
      (by decide) (by decide)
  exact ⟨h.1 (by decide) 0 (by decide), h2.2 (by decide) 2 (by decide)⟩

/-- C2 is violated by the code (whose own FIXME comment admits the right
side gets corrupted): for a 2x2 overlay at `x = 639` (one visible
column), the row loop advances the source index by the CLIPPED row width
(4 bytes) instead of the overlay's own row stride (8 bytes), so the
destination byte of the pixel at `(639, 1)` receives the overlay's
off-screen pixel `(0, 1)` (byte value 20) instead of the overlay's own
pixel `(1, 0)` (byte value 30, located at the unclipped stride
`1 * (2 * 4)` in RAM) as the claim requires. -/
theorem blit_right_clip_stride_bug :
    blit_overlay (fun _ => 0) ⟨true, 2, 2, 639, 0, 0⟩ c2ram
        = some (blitFn (fun _ => 0) ⟨true, 2, 2, 639, 0, 0⟩ c2ram) ∧
    blitFn (fun _ => 0) ⟨true, 2, 2, 639, 0, 0⟩ c2ram (639 * 4 + 1 * 2560) = 20 ∧
    c2ram (0 + 1 * (2 * 4) + 0) = 30 ∧
    (20 : Nat) ≠ 30 := by
  refine ⟨rfl, ?_, rfl, by decide⟩
  decide

/-- C8: any byte changed by a blit that passed the clipping subtractions
lies in rows `y .. y + clippedHeight - 1` (all below 480) with column
byte in `x*4 .. x*4 + clippedWidthBytes - 1` (all below `2560`, so no
write lands past column 639 or outside the background vector); and for
the spec's concrete scenario (overlay `x=635, y=0, 16x16`, uniformly
opaque red) the five visible columns of rows 0..15 receive exactly the
red pixel bytes. -/
theorem blit_clip_bounds :
    (∀ (fb ram : Nat → Nat) (ov : Overlay), blit_ok ov = true →
      ∀ i, blitFn fb ov ram i ≠ fb i →
        ov.y ≤ i / 2560 ∧ i / 2560 < ov.y + clippedHeight ov ∧
        i / 2560 < 480 ∧
        ov.x * 4 ≤ i % 2560 ∧ i % 2560 < ov.x * 4 + clippedWidthBytes ov ∧
        i < HEIGHT * WIDTH * 4) ∧
    (∀ r < 16, ∀ cb < 20,
      blitFn (fun _ => 0) redOverlay redRam (r * 2560 + 635 * 4 + cb)
        = redRam cb) := by
  constructor
  · intro fb ram ov hok i hne
    have happ := blitFn_apply fb ov ram hok i
    by_cases hwa : writesAt ov ram i = true
    · have h1 := blit_ok_rows_fit ov hok
      have hlt := writesAt_lt ov ram i hok hwa
      simp only [writesAt, WIDTH_mul, Bool.and_eq_true, decide_eq_true_eq] at hwa
      obtain ⟨⟨⟨⟨a1, a2⟩, a3⟩, a4⟩, -⟩ := hwa
      exact ⟨a1, a2, by omega, a3, a4, hlt⟩
    · rw [happ, if_neg hwa] at hne
      exact absurd rfl hne
  · decide

/-- Witness for C8: the red overlay changes byte 2540 (row 0, column 635)
and the theorem places it inside the clipped bounds. -/
theorem blit_clip_bounds_witness :
    redOverlay.y ≤ 2540 / 2560 ∧
    2540 / 2560 < redOverlay.y + clippedHeight redOverlay ∧
    2540 / 2560 < 480 ∧
    redOverlay.x * 4 ≤ 2540 % 2560 ∧
    2540 % 2560 < redOverlay.x * 4 + clippedWidthBytes redOverlay ∧
    2540 < HEIGHT * WIDTH * 4 :=
  blit_clip_bounds.1 (fun _ => 0) redRam redOverlay (by decide) 2540 (by decide)

/-- C4: `Display::update` composites exactly the enabled slots in
ascending index order 0..31 onto the snapshot: the highest-indexed enabled
slot whose opaque pixel covers byte `i` (no higher enabled slot writes
there) determines the final byte, and if no enabled slot writes byte `i`
it keeps the snapshot value. -/
theorem update_ascending_slots (background : Nat → Nat)
    (overlays : Nat → Overlay) (ram : Nat → Nat) (fb2 : Nat → Nat)
    (hupd : Display.update background overlays ram = some fb2) (i : Nat) :
    (∀ k, k < 32 → (overlays k).enabled = true →
      writesAt (overlays k) ram i = true →
      (∀ m, k < m → m < 32 → (overlays m).enabled = true →
        writesAt (overlays m) ram i = false) →
      fb2 i = ram (srcOf (overlays k) i)) ∧
    ((∀ k, k < 32 → (overlays k).enabled = true →
        writesAt (overlays k) ram i = false) →
      fb2 i = snapshot background ram i) := by
  constructor
  · intro k hk hen hwk hhigher
    have h32 : (32 : Nat) = (k + 1) + (31 - k) := by omega
    have hsplit : (List.range 32).map overlays
        = (List.range k).map overlays
          ++ overlays k
            :: (List.range (31 - k)).map (fun t => overlays (k + 1 + t)) := by
      rw [h32, List.range_add, List.range_succ]
      simp [Function.comp]
    unfold Display.update at hupd
    rw [hsplit] at hupd
    refine updateFold_lastWrite ram i _ _ _ _ fb2 hen hwk ?_ hupd
    intro ov hov hove
    rw [List.mem_map] at hov
    obtain ⟨t, ht, rfl⟩ := hov
    have ht31 := List.mem_range.mp ht
    exact hhigher (k + 1 + t) (by omega) (by omega) hove
  · intro hnone
    unfold Display.update at hupd
    refine updateFold_noWrite ram i _ _ fb2 ?_ hupd
    intro ov hov hove
    rw [List.mem_map] at hov
    obtain ⟨j, hj, rfl⟩ := hov
    exact hnone j (List.mem_range.mp hj) hove

/-- Witness for C4: slots 1 and 3 both cover pixel `(0,0)` opaquely; the
composited byte 0 is slot 3's source byte 200, not slot 1's 100. -/
theorem update_ascending_slots_witness :
    ∃ fb2, Display.update (fun _ => 0) c4overlays c4ram = some fb2 ∧
      fb2 0 = 200 := by
  refine ⟨_, rfl, ?_⟩
  have h := update_ascending_slots (fun _ => 0) c4overlays c4ram _ rfl 0
  refine (h.1 3 (by norm_num) rfl rfl ?_).trans (by decide)
  intro m hm1 hm2 hen
  have h1 : ¬ (m = 1) := by omega
  have h3 : ¬ (m = 3) := by omega
  simp [c4overlays, h1, h3] at hen

/-- C7: overlay compositing is idempotent under identical input state:
if `Display::update` produces a background `fb1`, running it again from
`fb1` (same RAM, same slots) produces exactly `fb1`; and a second
`blit_overlay` of the same overlay onto an already-composited background
changes nothing. -/
theorem update_idempotent (background : Nat → Nat)
    (overlays : Nat → Overlay) (ram fb1 : Nat → Nat)
    (hupd : Display.update background overlays ram = some fb1) :
    Display.update fb1 overlays ram = some fb1 ∧
    (∀ (fb : Nat → Nat) (ov : Overlay), blit_ok ov = true →
      blitFn (blitFn fb ov ram) ov ram = blitFn fb ov ram) := by
  constructor
  · have hpre : ∀ j, HEIGHT * WIDTH * 4 ≤ j → fb1 j = background j := by
      intro j hj
      have hupd2 := hupd
      unfold Display.update at hupd2
      have hno : ∀ ov ∈ (List.range 32).map overlays, ov.enabled = true →
          writesAt ov ram j = false := by
        intro ov hov hen
        have hok := updateFold_enabled_ok ram _ _ _ hupd2 ov hov hen
        by_contra hwcontra
        rw [Bool.not_eq_false] at hwcontra
        exact absurd (writesAt_lt ov ram j hok hwcontra) (Nat.not_lt.mpr hj)
      have hb := updateFold_noWrite ram j _ _ fb1 hno hupd2
      rw [hb]
      simp only [snapshot]
      rw [if_neg (Nat.not_lt.mpr hj)]
    have hsnap : snapshot fb1 ram = snapshot background ram := by
      funext j
      by_cases hj : j < HEIGHT * WIDTH * 4
      · simp only [snapshot, if_pos hj]
      · simp only [snapshot, if_neg hj]
        exact hpre j (Nat.not_lt.mp hj)
    unfold Display.update
    rw [hsnap]
    unfold Display.update at hupd
    exact hupd
  · intro fb ov hok
    funext j
    rw [blitFn_apply _ _ _ hok j]
    by_cases hwa : writesAt ov ram j = true
    · rw [if_pos hwa, blitFn_apply _ _ _ hok j, if_pos hwa]
    · rw [if_neg hwa]

/-- Witness for C7: a second update from the first update's output
reproduces it exactly. -/
theorem update_idempotent_witness :
    ∃ fb1, Display.update (fun _ => 0) c4overlays c4ram = some fb1 ∧
      Display.update fb1 c4overlays c4ram = some fb1 := by
  refine ⟨_, rfl, ?_⟩
  exact (update_idempotent (fun _ => 0) c4overlays c4ram _ rfl).1

end Fox32
